import Mathlib

/-!
Verification development for the TanStack `translate-docs` tool.

The definitions below are a shallow embedding of the TypeScript sources:
  * `src/ref-docs.ts` — `replaceContent`, `replaceSections`,
    `getSourceRefContent`, `extractFrontMatter`;
  * `src/utils.ts` — `shouldTranslateConfig`, `stripLabels`,
    `getDocUpdateStatus`, `shouldTranslateDoc`, `copyDoc`, `translateDoc`.

External collaborators (the filesystem, the `gray-matter` frontmatter
parser, the git time oracle, the LLM translation call and the wall clock)
are modelled as an explicit environment record `Env`: the code interacts
with each of them only through the corresponding field.  Frontmatter
metadata is modelled as an insertion-ordered association list of string
keys to `MVal` values, mirroring a plain JavaScript object; ISO-8601
timestamp strings are modelled by the instants they denote (`MVal.time`,
an integer), and `replace` keys are modelled as literal strings (the code
passes them to `new RegExp`; the model covers keys without regex
metacharacters, which is the shape all the claims use).
-/

namespace TranslateDocs

/-- A metadata value in a document's frontmatter (a JS value as far as the
tool inspects it).  `time` models an ISO-8601 timestamp string by the
instant it denotes; `undef` models JavaScript `undefined`. -/
inductive MVal where
  | str : String → MVal
  | bool : Bool → MVal
  | time : Int → MVal
  | obj : List (String × MVal) → MVal
  | undef : MVal

/-- Result of `gray-matter` on a file: parsed metadata plus the body. -/
structure GrayMatterFile where
  data : List (String × MVal)
  content : String

/-- The external collaborators of the core, as an explicit environment:
file reads (`fs.readFile`/`fs.access`, `none` = failure), frontmatter
parsing (`gray-matter`, `Except.error` = the parser threw), the git
last-commit-time oracle (`none` = no history, i.e. the call threw), the
LLM translation call, and the current wall-clock instant. -/
structure Env where
  readFile : String → Option String
  parse : String → Except Unit GrayMatterFile
  gitTime : String → Option Int
  translate : String → String
  now : Int

/-! ### Association-list primitives (JavaScript object / `Map` semantics)

JS objects and `Map`s keep insertion order; assigning to an existing key
overwrites the value in place, assigning a fresh key appends. -/

/-- Look a key up in an insertion-ordered association list (JS property
read / `Map.get`). -/
def alGet {α : Type} [DecidableEq α] {β : Type} : List (α × β) → α → Option β
  | [], _ => none
  | p :: rest, k => if p.1 = k then some p.2 else alGet rest k

/-- Set a key in an insertion-ordered association list (JS property
assignment / `Map.set`): overwrite in place, or append when fresh. -/
def alSet {α : Type} [DecidableEq α] {β : Type} (m : List (α × β)) (k : α) (v : β) :
    List (α × β) :=
  if (alGet m k).isSome then
    m.map (fun p => if p.1 = k then (k, v) else p)
  else
    m ++ [(k, v)]

/-- Spread JS-object entries onto an initial object:
`{ ...init-literal, ...data }`. -/
def objMerge (init : List (String × MVal)) (data : List (String × MVal)) :
    List (String × MVal) :=
  data.foldl (fun acc kv => alSet acc kv.1 kv.2) init

/-! ### Frontmatter field accessors

The code reads `data.ref`, `data['needs-translation']`, `data.replace`
and `data['translation-updated-at']` with JS truthiness / `===` checks;
the accessors mirror those checks for the value shapes the tool handles
(string refs, boolean flags, string-to-string replace maps, timestamp
strings). -/

/-- `frontmatter.data.ref`, with JS truthiness (an empty string is falsy). -/
def dataRef (fm : GrayMatterFile) : Option String :=
  match alGet fm.data "ref" with
  | some (MVal.str r) => if r = "" then none else some r
  | _ => none

/-- `frontmatter.data['needs-translation']`, honoured only when it is a
boolean (`=== true` / `=== false`). -/
def dataNeedsTranslation (fm : GrayMatterFile) : Option Bool :=
  match alGet fm.data "needs-translation" with
  | some (MVal.bool b) => some b
  | _ => none

/-- `frontmatter.data.replace` as a string-to-string record. -/
def dataReplace (fm : GrayMatterFile) : Option (List (String × String)) :=
  match alGet fm.data "replace" with
  | some (MVal.obj l) =>
      some (l.filterMap fun kv =>
        match kv.2 with
        | MVal.str s => some (kv.1, s)
        | _ => none)
  | _ => none

/-- A timestamp-valued metadata field (the instant an ISO string denotes). -/
def dataTime (data : List (String × MVal)) (k : String) : Option Int :=
  match alGet data k with
  | some (MVal.time t) => some t
  | _ => none

/-! ### `replaceContent` (src/ref-docs.ts) -/

/-- Drop a literal prefix from a character list, or fail. -/
def dropPfx : List Char → List Char → Option (List Char)
  | [], l => some l
  | _ :: _, [] => none
  | p :: ps, c :: cs => if c = p then dropPfx ps cs else none

/-- Global leftmost non-overlapping replacement of a non-empty literal
pattern, scanning left to right and resuming after each replacement
(JS `String.replace` with a `g` regex of the literal pattern).  `fuel`
bounds the characters left to examine. -/
def replAux (pat rep : List Char) : Nat → List Char → List Char
  | 0, l => l
  | _ + 1, [] => []
  | fuel + 1, c :: rest =>
      match dropPfx pat (c :: rest) with
      | some rest2 => rep ++ replAux pat rep fuel rest2
      | none => c :: replAux pat rep fuel rest

/-- JS `text.replace(new RegExp(key, 'g'), value)` for a literal key
(the model covers keys without regex metacharacters; an empty key is
left as a no-op). -/
def strReplaceAll (s pat rep : String) : String :=
  if pat = "" then s
  else String.mk (replAux pat.toList rep.toList s.toList.length s.toList)

/-- `replaceContent`: global string replace in `text` for each key-value
pair of the referencing frontmatter's `replace` map, in entry order. -/
def replaceContent (text : String) (frontmatter : GrayMatterFile) : String :=
  match dataReplace frontmatter with
  | some replace => replace.foldl (fun result kv => strReplaceAll result kv.1 kv.2) text
  | none => text

/-! ### Section markers and `replaceSections` (src/ref-docs.ts)

A marker is the literal `[//]: # '` followed by an alphanumeric name and
a closing quote; `sectionRegex` pairs one marker with the lazily-nearest
following marker, so the global matches are the consecutive disjoint
marker pairs in document order. -/

/-- The single-quote character (written numerically). -/
def sq : Char := Char.ofNat 39

/-- The space character (written numerically). -/
def spaceChar : Char := Char.ofNat 32

/-- The fixed prefix of a section marker. -/
def markerPre : List Char := ['[', '/', '/', ']', ':', spaceChar, '#', spaceChar, sq]

/-- `[a-zA-Z\d]`: an ASCII letter or digit. -/
def isAlnumC (c : Char) : Bool := c.isAlpha || c.isDigit

/-- Try to read one section marker at the head of the list, returning the
marker's name and the remaining characters. -/
def takeMarker (l : List Char) : Option (List Char × List Char) :=
  match dropPfx markerPre l with
  | none => none
  | some rest =>
      let name := rest.takeWhile isAlnumC
      match rest.dropWhile isAlnumC with
      | c :: rest2 => if c = sq then some (name, rest2) else none
      | [] => none

/-- Total length in characters of a marker with the given name. -/
def markerLen (name : List Char) : Nat := markerPre.length + name.length + 1

/-- Scan for all (non-overlapping, leftmost) markers, returning each
marker's start index and name.  `fuel` is an upper bound on the number of
characters left to examine (initially the list length). -/
def findMarkersAux : Nat → List Char → Nat → List (Nat × List Char)
  | 0, _, _ => []
  | _ + 1, [], _ => []
  | fuel + 1, c :: rest, i =>
      match takeMarker (c :: rest) with
      | some (name, rest2) => (i, name) :: findMarkersAux fuel rest2 (i + markerLen name)
      | none => findMarkersAux fuel rest (i + 1)

/-- All markers of a character list, in document order. -/
def findMarkers (l : List Char) : List (Nat × List Char) := findMarkersAux l.length l 0

/-- Pair consecutive markers into full section matches
`(openName, start, stop)` — exactly the global matches of
`sectionRegex` (a name mismatch between open and close markers is only
logged by the code; the match is still recorded under the open name). -/
def pairSections : List (Nat × List Char) → List (List Char × Nat × Nat)
  | (i1, n1) :: (i2, n2) :: rest => (n1, i1, i2 + markerLen n2) :: pairSections rest
  | _ => []

/-- The section matches of a character list. -/
def sectionMatches (l : List Char) : List (List Char × Nat × Nat) :=
  pairSections (findMarkers l)

/-- The (open-marker) section names of a document, in match order. -/
def sectionNames (s : String) : List String :=
  (sectionMatches s.toList).map (fun m => String.mk m.1)

/-- The slice of `l` from index `s` (inclusive) to `e` (exclusive) —
JS `slice(s, e)`. -/
def seg (l : List Char) (s e : Nat) : List Char := (l.take e).drop s

/-- The `substitutes` map of `replaceSections`: origin section name ↦
full matched origin text (`match[0]`), built with `Map.set` in match
order. -/
def buildSubs (originContent : List Char) : List (List Char × List Char) :=
  (sectionMatches originContent).foldl
    (fun m sm => alSet m sm.1 (seg originContent sm.2.1 sm.2.2)) []

/-- The `sections` map of `replaceSections`: target section name ↦
`(index, index + match length)` into the target, built with `Map.set` in
match order. -/
def buildSecs (targetContent : List Char) : List (List Char × Nat × Nat) :=
  (sectionMatches targetContent).foldl (fun m sm => alSet m sm.1 sm.2) []

/-- The splice loop of `replaceSections`: walk the substitutes entries in
reverse insertion order; whenever the target has a same-named section,
replace its (original) index range in the running result with the origin
text. -/
def spliceSubs (secs : List (List Char × Nat × Nat))
    (subs : List (List Char × List Char)) (t : List Char) : List Char :=
  subs.reverse.foldl
    (fun result kv =>
      match alGet secs kv.1 with
      | some se => result.take se.1 ++ kv.2 ++ result.drop se.2
      | none => result)
    t

/-- Remove every marker occurrence (`replaceAll(sectionMarkerRegex, '')`).
`fuel` bounds the characters left to examine. -/
def stripMarkersAux : Nat → List Char → List Char
  | 0, l => l
  | _ + 1, [] => []
  | fuel + 1, c :: rest =>
      match takeMarker (c :: rest) with
      | some (_, rest2) => stripMarkersAux fuel rest2
      | none => c :: stripMarkersAux fuel rest

/-- All section marker tokens stripped from a string, nothing else
changed. -/
def stripSectionMarkers (text : String) : String :=
  String.mk (stripMarkersAux text.toList.length text.toList)

/-- `replaceSections`: discover sections in the referencing frontmatter's
own body and in the target text, splice same-named target sections (from
the end of the substitutes list backward), then strip all markers. -/
def replaceSections (text : String) (frontmatter : GrayMatterFile) : String :=
  let subs := buildSubs frontmatter.content.toList
  let secs := buildSecs text.toList
  let spliced := spliceSubs secs subs text.toList
  String.mk (stripMarkersAux spliced.length spliced)

/-! ### `getSourceRefContent` (src/ref-docs.ts)

The source loops `while (maxDepth > currentDepth)` with `currentDepth`
starting at 1 and incremented once per followed `ref`, so the loop body
runs at most `maxDepth - 1` times; the embedding makes the remaining
iteration allowance (`maxDepth - currentDepth`) an explicit fuel
argument and additionally counts the iterations actually executed. -/

/-- `maxDepth` from `getSourceRefContent`. -/
def maxDepth : Nat := 4

/-- The per-hop content adjustment applied when the terminal document is
reached after at least one hop: the cached origin frontmatter's `replace`
substitutions, then its section overrides. -/
def applyOrigin (text : String) (originFrontmatter : GrayMatterFile) : String :=
  replaceSections (replaceContent text originFrontmatter) originFrontmatter

/-- The loop of `getSourceRefContent`, with the remaining iteration
allowance as fuel; the second component counts the loop iterations
executed.  A file-read failure yields `none`; a frontmatter parse throw
yields the raw text; a `ref`-free document yields the raw text, adjusted
by the cached origin frontmatter when one is set; otherwise the `ref` is
followed. -/
def refLoop (env : Env) : Nat → Option GrayMatterFile → String → Option String × Nat
  | 0, _, _ => (none, 0)
  | fuel + 1, originFrontmatter, filepath =>
      match env.readFile filepath with
      | none => (none, 1)
      | some text =>
          match env.parse text with
          | Except.error _ => (some text, 1)
          | Except.ok frontmatter =>
              match dataRef frontmatter with
              | none =>
                  match originFrontmatter with
                  | none => (some text, 1)
                  | some ofm => (some (applyOrigin text ofm), 1)
              | some next =>
                  let r := refLoop env fuel (some frontmatter) next
                  (r.1, r.2 + 1)

/-- `getSourceRefContent`: resolve a (possibly chained) reference
document to its effective content, `none` on read failure or when the
chain exhausts the depth allowance. -/
def getSourceRefContent (env : Env) (filepath : String) : Option String :=
  (refLoop env (maxDepth - 1) none filepath).1

/-- Number of loop iterations `getSourceRefContent` executes. -/
def getSourceRefContentSteps (env : Env) (filepath : String) : Nat :=
  (refLoop env (maxDepth - 1) none filepath).2

/-! ### Navigation configs and `shouldTranslateConfig` (src/utils.ts)

A navigation config is an arbitrary JSON value.  `JSON.parse(JSON.stringify(x))`
is the identity on JSON values, so the deep copies are modelled as the
values themselves; the MD5 digest is an arbitrary function of the
canonical string, passed in as a parameter. -/

/-- A JSON value (a navigation config or any of its sub-values). -/
inductive JVal where
  | str : String → JVal
  | num : Int → JVal
  | bool : Bool → JVal
  | jnull : JVal
  | arr : List JVal → JVal
  | obj : List (String × JVal) → JVal

mutual

/-- `stripLabels`: recursively remove every `label` field from all nested
objects; arrays are traversed element-wise, scalars (and `null`) are left
alone. -/
def stripLabels : JVal → JVal
  | JVal.arr l => JVal.arr (stripLabelsList l)
  | JVal.obj l => JVal.obj (stripLabelsObj l)
  | v => v

/-- `stripLabels` over the items of an array. -/
def stripLabelsList : List JVal → List JVal
  | [] => []
  | v :: rest => stripLabels v :: stripLabelsList rest

/-- `stripLabels` over the entries of an object: drop `label` entries,
recurse into the remaining values. -/
def stripLabelsObj : List (String × JVal) → List (String × JVal)
  | [] => []
  | (k, v) :: rest =>
      if k = "label" then stripLabelsObj rest
      else (k, stripLabels v) :: stripLabelsObj rest

end

mutual

/-- `JSON.stringify` on the stripped structure (string escaping elided:
the model quotes verbatim, which is injective on the fragment used). -/
def jstr : JVal → String
  | JVal.str s => "\"" ++ s ++ "\""
  | JVal.num n => toString n
  | JVal.bool b => if b then "true" else "false"
  | JVal.jnull => "null"
  | JVal.arr l => "[" ++ jstrList l ++ "]"
  | JVal.obj l => "\x7b" ++ jstrObj l ++ "\x7d"

/-- Serialize array items, comma-separated. -/
def jstrList : List JVal → String
  | [] => ""
  | [v] => jstr v
  | v :: rest => jstr v ++ "," ++ jstrList rest

/-- Serialize object entries, comma-separated. -/
def jstrObj : List (String × JVal) → String
  | [] => ""
  | [(k, v)] => "\"" ++ k ++ "\":" ++ jstr v
  | (k, v) :: rest => "\"" ++ k ++ "\":" ++ jstr v ++ "," ++ jstrObj rest

end

/-- `shouldTranslateConfig`: deep-copy both configs, strip every `label`
field, hash the canonical serializations with `md5`, and report whether
the digests differ. -/
def shouldTranslateConfig (md5 : String → String) (docsConfig translatedConfig : JVal) :
    Bool :=
  let sourceHash := md5 (jstr (stripLabels docsConfig))
  let targetHash := md5 (jstr (stripLabels translatedConfig))
  sourceHash != targetHash

mutual

/-- Claim-side relation: two JSON values are identical except possibly
for the values sitting under `label` keys, at any nesting depth. -/
def labelEqv : JVal → JVal → Bool
  | JVal.str s1, JVal.str s2 => s1 == s2
  | JVal.num n1, JVal.num n2 => n1 == n2
  | JVal.bool b1, JVal.bool b2 => b1 == b2
  | JVal.jnull, JVal.jnull => true
  | JVal.arr l1, JVal.arr l2 => labelEqvList l1 l2
  | JVal.obj l1, JVal.obj l2 => labelEqvObj l1 l2
  | _, _ => false

/-- `labelEqv` item-wise over arrays of equal length. -/
def labelEqvList : List JVal → List JVal → Bool
  | [], [] => true
  | v1 :: r1, v2 :: r2 => labelEqv v1 v2 && labelEqvList r1 r2
  | _, _ => false

/-- `labelEqv` entry-wise over objects: same keys in the same order, and
equivalent values except under a `label` key, where values are free. -/
def labelEqvObj : List (String × JVal) → List (String × JVal) → Bool
  | [], [] => true
  | (k1, v1) :: r1, (k2, v2) :: r2 =>
      k1 == k2 && (if k1 = "label" then true else labelEqv v1 v2) && labelEqvObj r1 r2
  | _, _ => false

end

/-! ### `shouldTranslateDoc` and `getDocUpdateStatus` (src/utils.ts) -/

/-- `shouldTranslateDoc`: decide from a document's parsed frontmatter
whether it needs LLM translation, with the reason string. -/
def shouldTranslateDoc (frontmatter : GrayMatterFile) : Bool × String :=
  match dataRef frontmatter with
  | none =>
      if frontmatter.content ≠ "" then
        (true, "Document has content, needs translation")
      else
        (false, "Document has no content, no translation needed")
  | some _ =>
      match dataNeedsTranslation frontmatter with
      | some true =>
          (true, "Ref-document has needs-translation=true metadata, needs translation")
      | some false =>
          (false, "Ref-document has needs-translation=false metadata, no translation needed")
      | none =>
          if (match dataReplace frontmatter with
              | some replace => replace.any (fun kv => kv.1.contains spaceChar)
              | none => false) then
            (true, "Ref-document has replace metadata, needs translation")
          else if frontmatter.content ≠ "" then
            (true, "Ref-document has content, needs translation")
          else
            (false, "Ref-document has no replace metadata, no content, no translation needed")

/-- The tail of `getDocUpdateStatus` after the effective source time is
known: compute the translation verdict, then compare against the
target's recorded `translation-updated-at` (kept as a separate
definition only to name the shared code path after the `ref` branch). -/
def finishStatus (env : Env) (sourceParsed : GrayMatterFile) (targetPath : String)
    (sourceLastModified : Int) : Option (Bool × Bool × String) :=
  let st := shouldTranslateDoc sourceParsed
  match env.readFile targetPath with
  | none => some (true, st.1, "Target file not found, needs updating. " ++ st.2)
  | some targetContent =>
      match env.parse targetContent with
      | Except.error _ => none
      | Except.ok targetParsed =>
          match dataTime targetParsed.data "translation-updated-at" with
          | some translationUpdatedAt =>
              if sourceLastModified > translationUpdatedAt then
                some (true, st.1,
                  "Source file has been updated since last translation, needs updating. "
                    ++ st.2)
              else
                some (false, false,
                  "Source file has not been updated since last translation. " ++ st.2)
          | none =>
              some (true, st.1,
                "Target file has no source-updated-at metadata, needs updating. " ++ st.2)

/-- `getDocUpdateStatus`: decide whether a target document needs
updating and whether it needs translation.  `none` models an uncaught
throw (frontmatter parse failure or a path with no git history). -/
def getDocUpdateStatus (env : Env) (sourcePath targetPath : String) :
    Option (Bool × Bool × String) :=
  match env.readFile sourcePath with
  | none =>
      some (false, false,
        "Source file not found, do not need updating, consider REMOVING it")
  | some sourceContent =>
      match env.parse sourceContent with
      | Except.error _ => none
      | Except.ok sourceParsed =>
          match env.gitTime sourcePath with
          | none => none
          | some sourceTime =>
              match dataRef sourceParsed with
              | some refPath =>
                  match env.readFile refPath with
                  | none =>
                      some (false, false,
                        "Referenced file not found, do not need updating, consider REMOVING it")
                  | some _ =>
                      match env.gitTime refPath with
                      | none => none
                      | some refTime =>
                          finishStatus env sourceParsed targetPath
                            (if refTime > sourceTime then refTime else sourceTime)
              | none => finishStatus env sourceParsed targetPath sourceTime

/-! ### `copyDoc` and `translateDoc` (src/utils.ts)

Both operations are modelled up to the single file write they perform:
the value returned is the document written to the target path (path,
frontmatter object passed to `matter.stringify`, body), `none` when the
code returns without writing (read/parse/git-history failure, or an
unresolvable `ref`). -/

/-- A document written to the target tree. -/
structure WrittenDoc where
  path : String
  data : List (String × MVal)
  content : String

/-- `copyDoc`: re-serialize the source with fresh `source-updated-at` /
`translation-updated-at` (original metadata spread over them), rewriting
a `ref` to point into the translated tree. -/
def copyDoc (env : Env) (sourcePath targetPath docsRoot translatedRoot : String) :
    Option WrittenDoc :=
  match env.readFile sourcePath with
  | none => none
  | some sourceContent =>
      match env.parse sourceContent with
      | Except.error _ => none
      | Except.ok parsed =>
          match env.gitTime sourcePath with
          | none => none
          | some sourceUpdatedAt =>
              let newData := objMerge
                [("source-updated-at", MVal.time sourceUpdatedAt),
                 ("translation-updated-at", MVal.time env.now)] parsed.data
              let newData2 :=
                match dataRef parsed with
                | some currentRef =>
                    let relativePath := currentRef.drop (docsRoot.length + 1)
                    alSet newData "ref" (MVal.str (translatedRoot ++ "/" ++ relativePath))
                | none => newData
              some { path := targetPath, data := newData2, content := parsed.content }

/-- The document `translateDoc` actually translates: the source itself,
or — when the source carries a `ref` — the re-parsed resolved chain
content (`none` when resolution or the re-parse fails, in which case
nothing is written). -/
def translateSourceDoc (env : Env) (sourcePath : String) (parsed : GrayMatterFile) :
    Option GrayMatterFile :=
  match dataRef parsed with
  | some _ =>
      match getSourceRefContent env sourcePath with
      | some refContent =>
          match env.parse refContent with
          | Except.error _ => none
          | Except.ok p => some p
      | none => none
  | none => some parsed

/-- `translateDoc`: translate the (chain-resolved) body and write it with
fresh timestamps, the translated document's metadata spread over them,
and the navigation `title` label. -/
def translateDoc (env : Env) (sourcePath targetPath : String) (title : Option String) :
    Option WrittenDoc :=
  match env.readFile sourcePath with
  | none => none
  | some sourceContent =>
      match env.parse sourceContent with
      | Except.error _ => none
      | Except.ok parsed0 =>
          match translateSourceDoc env sourcePath parsed0 with
          | none => none
          | some parsed =>
              let translatedContent := env.translate parsed.content
              match env.gitTime sourcePath with
              | none => none
              | some sourceUpdatedAt =>
                  let newData := objMerge
                    [("source-updated-at", MVal.time sourceUpdatedAt),
                     ("translation-updated-at", MVal.time env.now)] parsed.data
                  let newData2 := alSet newData "title"
                    (match title with
                     | some t => MVal.str t
                     | none => MVal.undef)
                  some { path := targetPath, data := newData2, content := translatedContent }

/-! ## Helper lemmas -/

/-- Each loop pass of `getSourceRefContent` consumes one unit of the
depth allowance, so the iteration count never exceeds the fuel. -/
theorem refLoop_steps_le (env : Env) :
    ∀ (fuel : Nat) (o : Option GrayMatterFile) (p : String),
      (refLoop env fuel o p).2 ≤ fuel := by
  intro fuel
  induction fuel with
  | zero => intro o p; simp [refLoop]
  | succ n ih =>
      intro o p
      simp only [refLoop]
      cases h1 : env.readFile p with
      | none => simp
      | some text =>
          simp only []
          cases h2 : env.parse text with
          | error e => simp
          | ok fm =>
              simp only []
              cases h3 : dataRef fm with
              | none => cases o <;> simp
              | some next =>
                  simp only []
                  exact Nat.succ_le_succ (ih (some fm) next)

/-! ## Claims -/

/-- Modelled from the claim wording of C5 (spec §4.3b): the translation
verdict as the specification words it, for comparison with
`shouldTranslateDoc`. -/
def shouldTranslateDocSpec (fm : GrayMatterFile) : Bool :=
  match dataRef fm with
  | none => fm.content != ""
  | some _ =>
      match dataNeedsTranslation fm with
      | some b => b
      | none =>
          if (match dataReplace fm with
              | some replace => replace.any (fun kv => kv.1.contains spaceChar)
              | none => false) then true
          else fm.content != ""

/-- C5: for every parsed frontmatter, `shouldTranslateDoc` returns: with
no `ref` key, true iff the body is non-empty; with a `ref` key, the
literal `needs-translation` boolean when present, else true when any
`replace` key contains a space, else true iff the document's own body is
non-empty, else false. -/
theorem claim_C5 (fm : GrayMatterFile) :
    (shouldTranslateDoc fm).1 = shouldTranslateDocSpec fm := by
  unfold shouldTranslateDoc shouldTranslateDocSpec
  rcases hr : dataRef fm with _ | r
  · by_cases h : fm.content = "" <;> simp [h]
  · rcases hn : dataNeedsTranslation fm with _ | b
    · rcases hrep : dataReplace fm with _ | rep <;>
        · simp only []
          split <;> by_cases h : fm.content = "" <;> simp_all
    · cases b <;> simp

/-- C2: `getSourceRefContent` executes at most `maxDepth - 1 = 3` loop
iterations on every input, and any chain whose first three documents all
carry a `ref` (in particular a chain of `ref`s nested 5 deep, or a
cyclic chain — the paths need not be distinct) resolves to `none`
rather than looping. -/
theorem claim_C2 (env : Env) (p1 p2 p3 p4 t1 t2 t3 : String)
    (f1 f2 f3 : GrayMatterFile)
    (h1 : env.readFile p1 = some t1) (hp1 : env.parse t1 = Except.ok f1)
    (hr1 : dataRef f1 = some p2)
    (h2 : env.readFile p2 = some t2) (hp2 : env.parse t2 = Except.ok f2)
    (hr2 : dataRef f2 = some p3)
    (h3 : env.readFile p3 = some t3) (hp3 : env.parse t3 = Except.ok f3)
    (hr3 : dataRef f3 = some p4) :
    getSourceRefContent env p1 = none ∧
      ∀ (env2 : Env) (q : String), getSourceRefContentSteps env2 q ≤ maxDepth - 1 := by
  constructor
  · unfold getSourceRefContent maxDepth
    simp [refLoop, h1, hp1, hr1, h2, hp2, hr2, h3, hp3, hr3]
  · intro env2 q
    exact refLoop_steps_le env2 (maxDepth - 1) none q

/-- Concrete chain for the C2 witness: `a.md → b.md → c.md → a.md`, a
cyclic chain in which every document is a reference document. -/
def c2Env : Env :=
  { readFile := fun p =>
      if p = "a.md" then some "A"
      else if p = "b.md" then some "B"
      else if p = "c.md" then some "C"
      else none
  , parse := fun t =>
      if t = "A" then Except.ok ⟨[("ref", MVal.str "b.md")], ""⟩
      else if t = "B" then Except.ok ⟨[("ref", MVal.str "c.md")], ""⟩
      else if t = "C" then Except.ok ⟨[("ref", MVal.str "a.md")], ""⟩
      else Except.error ()
  , gitTime := fun _ => none
  , translate := fun s => s
  , now := 0 }

/-- Witness for C2 at the concrete cyclic chain `a.md → b.md → c.md → a.md`. -/
theorem claim_C2_witness :
    getSourceRefContent c2Env "a.md" = none ∧
      getSourceRefContentSteps c2Env "a.md" ≤ maxDepth - 1 := by
  have h := claim_C2 c2Env "a.md" "b.md" "c.md" "a.md" "A" "B" "C"
    ⟨[("ref", MVal.str "b.md")], ""⟩ ⟨[("ref", MVal.str "c.md")], ""⟩
    ⟨[("ref", MVal.str "a.md")], ""⟩
    (by decide) (by rfl) (by decide) (by decide) (by rfl) (by decide)
    (by decide) (by rfl) (by decide)
  exact ⟨h.1, h.2 c2Env "a.md"⟩

/-- Concrete document for the C3 counterexample: a readable file whose
frontmatter block parses (with no `ref` key) and whose body is `body`. -/
def c3Raw : String := "---\ntitle: T\n---\nbody"

/-- Environment for the C3 counterexample; the parse result at `c3Raw`
is exactly what `gray-matter` produces on it: metadata `title: T`,
body `body`. -/
def c3Env : Env :=
  { readFile := fun p => if p = "a.md" then some c3Raw else none
  , parse := fun t =>
      if t = c3Raw then Except.ok ⟨[("title", MVal.str "T")], "body"⟩
      else Except.error ()
  , gitTime := fun _ => none
  , translate := fun s => s
  , now := 0 }

/-- Counterexample to C3 as stated: on a readable document whose
frontmatter has no `ref` key, `getSourceRefContent` returns the raw file
text — the metadata block is NOT removed — so the result differs from
the document's body whenever a metadata block is present. -/
theorem claim_C3_counterexample :
    getSourceRefContent c3Env "a.md" = some c3Raw ∧
      ((c3Env.parse c3Raw).toOption.map GrayMatterFile.content) = some "body" ∧
      c3Raw ≠ "body" :=
  ⟨by decide, by decide, by decide⟩

/-- C3 amended: for every readable document whose frontmatter parses and
has no `ref` key, calling `getSourceRefContent` directly on it returns
the document's full raw file text unmodified (frontmatter block
included, no substitutions applied). -/
theorem claim_C3_amended (env : Env) (p t : String) (fm : GrayMatterFile)
    (hread : env.readFile p = some t) (hparse : env.parse t = Except.ok fm)
    (href : dataRef fm = none) :
    getSourceRefContent env p = some t := by
  unfold getSourceRefContent maxDepth
  simp [refLoop, hread, hparse, href]

/-- Witness for the amended C3 at the concrete document `c3Raw`. -/
theorem claim_C3_amended_witness : getSourceRefContent c3Env "a.md" = some c3Raw :=
  claim_C3_amended c3Env "a.md" c3Raw ⟨[("title", MVal.str "T")], "body"⟩
    (by decide) (by rfl) (by decide)

/-- C10: at any point of a chain (any remaining depth allowance, any
cached origin frontmatter), if the file read succeeds but the
frontmatter parse throws, the loop returns that node's raw file text:
no error, no `replace` substitution or section splice from the
preceding hop, and the chain is not followed further. -/
theorem claim_C10 (env : Env) (fuel : Nat) (origin : Option GrayMatterFile)
    (p t : String) (hfuel : 0 < fuel)
    (hread : env.readFile p = some t) (hparse : env.parse t = Except.error ()) :
    (refLoop env fuel origin p).1 = some t := by
  cases fuel with
  | zero => omega
  | succ n => simp [refLoop, hread, hparse]

/-- Environment for the C10 witness: `x.md` reads as `RAW`, and every
parse throws. -/
def c10Env : Env :=
  { readFile := fun p => if p = "x.md" then some "RAW" else none
  , parse := fun _ => Except.error ()
  , gitTime := fun _ => none
  , translate := fun s => s
  , now := 0 }

/-- Origin frontmatter for the C10 witness, carrying a `replace` rule
that would rewrite `RAW` if it were applied. -/
def c10Origin : GrayMatterFile :=
  ⟨[("replace", MVal.obj [("RAW", MVal.str "changed")])], ""⟩

/-- Witness for C10: one hop into a chain (origin frontmatter cached,
with a substitution that would alter the text), the parse throws and the
raw text comes back untouched. -/
theorem claim_C10_witness :
    0 < 3 ∧ (refLoop c10Env 3 (some c10Origin) "x.md").1 = some "RAW" :=
  ⟨by decide,
    claim_C10 c10Env 3 (some c10Origin) "x.md" "RAW" (by decide) (by decide) (by rfl)⟩

/-- First non-terminal node of the C1 counterexample chain: refers to
`b.md` and carries a `replace` rule `alpha → gamma`. -/
def c1Fm1 : GrayMatterFile :=
  ⟨[("ref", MVal.str "b.md"), ("replace", MVal.obj [("alpha", MVal.str "gamma")])], ""⟩

/-- Second non-terminal node of the C1 counterexample chain: refers to
the terminal `c.md` and carries no overrides. -/
def c1Fm2 : GrayMatterFile := ⟨[("ref", MVal.str "c.md")], ""⟩

/-- Environment for the C1 counterexample: the chain
`a.md → b.md → c.md` with terminal body `alpha`. -/
def c1Env : Env :=
  { readFile := fun p =>
      if p = "a.md" then some "A"
      else if p = "b.md" then some "B"
      else if p = "c.md" then some "alpha"
      else none
  , parse := fun t =>
      if t = "A" then Except.ok c1Fm1
      else if t = "B" then Except.ok c1Fm2
      else if t = "alpha" then Except.ok ⟨[], "alpha"⟩
      else Except.error ()
  , gitTime := fun _ => none
  , translate := fun s => s
  , now := 0 }

/-- Counterexample to C1 as stated: on the length-3 chain
`a.md → b.md → c.md`, the code resolves to the terminal text with only
`b.md`'s (empty) overrides applied, i.e. `alpha`; applying the overrides
of every non-terminal node from the terminal backward (first `c1Fm2`,
then `c1Fm1`) would instead give `gamma`. -/
theorem claim_C1_counterexample :
    getSourceRefContent c1Env "a.md" = some "alpha" ∧
      applyOrigin (applyOrigin "alpha" c1Fm2) c1Fm1 = "gamma" ∧
      "alpha" ≠ "gamma" :=
  ⟨by decide, by decide, by decide⟩

/-- C1 amended: for every reference chain of length exactly 3 — two
non-terminal reference documents followed by a terminal document; longer
chains exhaust the depth allowance and resolve to `none` — the resolved
content is the terminal document's raw text with ONLY the `replace`
substitutions and section overrides of the non-terminal node nearest the
terminal applied; the head node's overrides are not applied. -/
theorem claim_C1_amended (env : Env) (p1 p2 p3 t1 t2 t3 : String)
    (f1 f2 f3 : GrayMatterFile)
    (h1 : env.readFile p1 = some t1) (hp1 : env.parse t1 = Except.ok f1)
    (hr1 : dataRef f1 = some p2)
    (h2 : env.readFile p2 = some t2) (hp2 : env.parse t2 = Except.ok f2)
    (hr2 : dataRef f2 = some p3)
    (h3 : env.readFile p3 = some t3) (hp3 : env.parse t3 = Except.ok f3)
    (hr3 : dataRef f3 = none) :
    getSourceRefContent env p1 = some (applyOrigin t3 f2) := by
  unfold getSourceRefContent maxDepth
  simp [refLoop, h1, hp1, hr1, h2, hp2, hr2, h3, hp3, hr3]

/-- Witness for the amended C1 at the concrete chain `a.md → b.md → c.md`. -/
theorem claim_C1_amended_witness :
    getSourceRefContent c1Env "a.md" = some (applyOrigin "alpha" c1Fm2) :=
  claim_C1_amended c1Env "a.md" "b.md" "c.md" "A" "B" "alpha"
    c1Fm1 c1Fm2 ⟨[], "alpha"⟩
    (by decide) (by rfl) (by decide) (by decide) (by rfl) (by decide)
    (by decide) (by rfl) (by decide)

/-- Every triple produced by the tail of `getDocUpdateStatus` with a
false `shouldUpdate` also has a false `shouldTranslate`. -/
theorem finishStatus_false_false (env : Env) (sourceParsed : GrayMatterFile)
    (targetPath : String) (tm : Int) (t : Bool × Bool × String)
    (h : finishStatus env sourceParsed targetPath tm = some t) (hu : t.1 = false) :
    t.2.1 = false := by
  unfold finishStatus at h
  repeat' split at h
  all_goals try injection h with h
  all_goals try subst h
  all_goals simp_all

/-- C6: every triple `(shouldUpdate, shouldTranslate, reason)` returned
by `getDocUpdateStatus`, on any pair of paths and any file/git state,
satisfies: `shouldUpdate = false` implies `shouldTranslate = false`. -/
theorem claim_C6 (env : Env) (sourcePath targetPath : String) (t : Bool × Bool × String)
    (h : getDocUpdateStatus env sourcePath targetPath = some t) (hu : t.1 = false) :
    t.2.1 = false := by
  unfold getDocUpdateStatus at h
  repeat' split at h
  all_goals try injection h with h
  all_goals try subst h
  all_goals
    first
      | exact finishStatus_false_false _ _ _ _ _ h hu
      | simp_all

/-- Environment for the C6 witness: no files exist at all. -/
def c6Env : Env :=
  { readFile := fun _ => none
  , parse := fun _ => Except.error ()
  , gitTime := fun _ => none
  , translate := fun s => s
  , now := 0 }

/-- Witness for C6 at a concrete run (missing source): `shouldUpdate`
is false and `shouldTranslate` is indeed false. -/
theorem claim_C6_witness :
    ((false, false,
        "Source file not found, do not need updating, consider REMOVING it")
          : Bool × Bool × String).2.1 = false :=
  claim_C6 c6Env "s.md" "t.md" _ (by decide) (by decide)

/-- When the target exists, parses, and records a
`translation-updated-at`, the tail of `getDocUpdateStatus` reports stale
exactly when the effective source time is strictly later, and suppresses
the translation verdict otherwise. -/
theorem finishStatus_stale (env : Env) (sourceParsed targetParsed : GrayMatterFile)
    (targetPath targetContent : String) (tm transAt : Int)
    (ht : env.readFile targetPath = some targetContent)
    (htp : env.parse targetContent = Except.ok targetParsed)
    (htt : dataTime targetParsed.data "translation-updated-at" = some transAt) :
    ∃ reason, finishStatus env sourceParsed targetPath tm =
      some (decide (tm > transAt),
            (shouldTranslateDoc sourceParsed).1 && decide (tm > transAt), reason) := by
  unfold finishStatus
  simp only [ht, htp, htt]
  by_cases hc : tm > transAt
  · refine ⟨"Source file has been updated since last translation, needs updating. "
        ++ (shouldTranslateDoc sourceParsed).2, ?_⟩
    simp [hc]
  · refine ⟨"Source file has not been updated since last translation. "
        ++ (shouldTranslateDoc sourceParsed).2, ?_⟩
    simp [hc]

/-- C4: for every existing, parsing source and existing target whose
frontmatter records `translation-updated-at`, `getDocUpdateStatus`
reports `shouldUpdate = true` iff the source's effective last-modified
time (the later of the source's git time and, when a `ref` is present,
the ref target's git time) is strictly later than the recorded
timestamp; when it is not strictly later, both components are false
regardless of the `shouldTranslateDoc` verdict. -/
theorem claim_C4 (env : Env) (sourcePath targetPath sourceContent targetContent : String)
    (sourceParsed targetParsed : GrayMatterFile) (sourceTime effTime transAt : Int)
    (hs : env.readFile sourcePath = some sourceContent)
    (hsp : env.parse sourceContent = Except.ok sourceParsed)
    (hg : env.gitTime sourcePath = some sourceTime)
    (heff : match dataRef sourceParsed with
      | none => effTime = sourceTime
      | some r => ∃ rc rt, env.readFile r = some rc ∧ env.gitTime r = some rt ∧
          effTime = max sourceTime rt)
    (ht : env.readFile targetPath = some targetContent)
    (htp : env.parse targetContent = Except.ok targetParsed)
    (htt : dataTime targetParsed.data "translation-updated-at" = some transAt) :
    ∃ reason, getDocUpdateStatus env sourcePath targetPath =
      some (decide (effTime > transAt),
            (shouldTranslateDoc sourceParsed).1 && decide (effTime > transAt),
            reason) := by
  unfold getDocUpdateStatus
  rcases hr : dataRef sourceParsed with _ | r
  · rw [hr] at heff
    rw [heff]
    simp only [hs, hsp, hg, hr]
    exact finishStatus_stale env sourceParsed targetParsed targetPath targetContent
      sourceTime transAt ht htp htt
  · rw [hr] at heff
    obtain ⟨rc, rt, hrc, hrt, heq⟩ := heff
    have hmax : (if rt > sourceTime then rt else sourceTime) = max sourceTime rt := by
      by_cases hlt : rt > sourceTime
      · rw [if_pos hlt, max_eq_right hlt.le]
      · rw [if_neg hlt, max_eq_left (le_of_not_lt hlt)]
    rw [heq]
    simp only [hs, hsp, hg, hr, hrc, hrt, hmax]
    exact finishStatus_stale env sourceParsed targetParsed targetPath targetContent
      (max sourceTime rt) transAt ht htp htt

/-- Source frontmatter for the C4 witness: a reference document with a
non-empty body. -/
def c4Sfm : GrayMatterFile := ⟨[("ref", MVal.str "r.md")], "body"⟩

/-- Target frontmatter for the C4 witness, translated at instant 100. -/
def c4Tfm : GrayMatterFile := ⟨[("translation-updated-at", MVal.time 100)], "x"⟩

/-- Environment for the C4 witness: source committed at 50, its ref
target at 200, target translated at 100 — the ref time makes the target
stale. -/
def c4Env : Env :=
  { readFile := fun p =>
      if p = "s.md" then some "S"
      else if p = "r.md" then some "R"
      else if p = "t.md" then some "T"
      else none
  , parse := fun t =>
      if t = "S" then Except.ok c4Sfm
      else if t = "T" then Except.ok c4Tfm
      else Except.error ()
  , gitTime := fun p =>
      if p = "s.md" then some 50
      else if p = "r.md" then some 200
      else none
  , translate := fun s => s
  , now := 0 }

/-- Witness for C4: effective time `max 50 200 = 200 > 100`, so the
target is stale and the translation verdict survives. -/
theorem claim_C4_witness :
    ∃ reason, getDocUpdateStatus c4Env "s.md" "t.md" = some (true, true, reason) := by
  obtain ⟨reason, h⟩ := claim_C4 c4Env "s.md" "t.md" "S" "T" c4Sfm c4Tfm 50 200 100
    (by decide) (by rfl) (by decide)
    (⟨"R", 200, by decide, by decide, by decide⟩)
    (by decide) (by rfl) (by decide)
  refine ⟨reason, ?_⟩
  have e1 : (decide ((200 : Int) > 100)) = true := by decide
  have e2 : (shouldTranslateDoc c4Sfm).1 = true := by decide
  rw [e1, e2] at h
  simpa using h

/-- Every JSON value has positive size. -/
theorem jval_one_le_sizeOf (v : JVal) : 1 ≤ sizeOf v := by
  cases v <;> simp

/-- Simultaneous induction (on size) for the label-stripping
congruence: values, array item lists and object entry lists that are
`labelEqv` strip to identical structures. -/
theorem stripLabels_eqv_aux (n : Nat) :
    (∀ v1 v2 : JVal, sizeOf v1 ≤ n → labelEqv v1 v2 = true →
        stripLabels v1 = stripLabels v2) ∧
    (∀ l1 l2 : List JVal, sizeOf l1 ≤ n → labelEqvList l1 l2 = true →
        stripLabelsList l1 = stripLabelsList l2) ∧
    (∀ o1 o2 : List (String × JVal), sizeOf o1 ≤ n → labelEqvObj o1 o2 = true →
        stripLabelsObj o1 = stripLabelsObj o2) := by
  induction n with
  | zero =>
      refine ⟨fun v1 _ hsz _ => ?_, fun l1 _ hsz _ => ?_, fun o1 _ hsz _ => ?_⟩
      · have := jval_one_le_sizeOf v1; omega
      · cases l1 <;> simp at hsz
      · cases o1 <;> simp at hsz
  | succ n ih =>
      obtain ⟨ihV, ihL, ihO⟩ := ih
      refine ⟨?_, ?_, ?_⟩
      · intro v1 v2 hsz h
        cases v1 <;> cases v2 <;> simp_all [labelEqv, stripLabels]
        · exact ihL _ _ (by omega) h
        · exact ihO _ _ (by omega) h
      · intro l1 l2 hsz h
        cases l1 with
        | nil => cases l2 with
          | nil => rfl
          | cons w r2 => simp [labelEqvList] at h
        | cons v r1 =>
          cases l2 with
          | nil => simp [labelEqvList] at h
          | cons w r2 =>
            simp only [labelEqvList, Bool.and_eq_true] at h
            simp only [stripLabelsList]
            simp only [List.cons.sizeOf_spec] at hsz
            rw [ihV v w (by omega) h.1, ihL r1 r2 (by omega) h.2]
      · intro o1 o2 hsz h
        cases o1 with
        | nil => cases o2 with
          | nil => rfl
          | cons w r2 => simp [labelEqvObj] at h
        | cons p r1 =>
          cases o2 with
          | nil => simp [labelEqvObj] at h
          | cons q r2 =>
            obtain ⟨k1, v1⟩ := p
            obtain ⟨k2, v2⟩ := q
            simp only [labelEqvObj, Bool.and_eq_true, beq_iff_eq] at h
            obtain ⟨⟨hk, hv⟩, hrest⟩ := h
            subst hk
            simp only [List.cons.sizeOf_spec, Prod.mk.sizeOf_spec] at hsz
            by_cases hlab : k1 = "label"
            · simp only [stripLabelsObj, if_pos hlab]
              exact ihO r1 r2 (by omega) hrest
            · simp only [stripLabelsObj, if_neg hlab]
              rw [if_neg hlab] at hv
              rw [ihV v1 v2 (by omega) hv, ihO r1 r2 (by omega) hrest]

/-- Two `labelEqv` JSON values strip to the same structure. -/
theorem stripLabels_eqv (v1 v2 : JVal) (h : labelEqv v1 v2 = true) :
    stripLabels v1 = stripLabels v2 :=
  (stripLabels_eqv_aux (sizeOf v1)).1 v1 v2 le_rfl h

/-- C7: for every pair of navigation configs identical except for the
values of `label` fields at any nesting depth (and any digest function),
`shouldTranslateConfig` returns false. -/
theorem claim_C7 (md5 : String → String) (c1 c2 : JVal)
    (h : labelEqv c1 c2 = true) :
    shouldTranslateConfig md5 c1 c2 = false := by
  unfold shouldTranslateConfig
  rw [stripLabels_eqv c1 c2 h]
  simp

/-- Witness for C7: two configs differing only in a `label` value. -/
theorem claim_C7_witness :
    shouldTranslateConfig (fun s => s)
        (JVal.obj [("label", JVal.str "A"), ("to", JVal.str "x")])
        (JVal.obj [("label", JVal.str "B"), ("to", JVal.str "x")]) = false :=
  claim_C7 (fun s => s) _ _ (by decide)

/-- Overwriting an entry under a different key leaves a lookup
unchanged (in-place branch of `alSet`). -/
theorem alGet_map_set_ne {α β : Type} [DecidableEq α] (m : List (α × β)) (k1 k : α)
    (v : β) (hne : k1 ≠ k) :
    alGet (m.map (fun p => if p.1 = k1 then (k1, v) else p)) k = alGet m k := by
  induction m with
  | nil => rfl
  | cons p rest ih =>
      by_cases h1 : p.1 = k1
      · simp [alGet, h1, hne, ih]
      · simp [alGet, h1, ih]

/-- Appending an entry under a different key leaves a lookup unchanged
(append branch of `alSet`). -/
theorem alGet_append_single_ne {α β : Type} [DecidableEq α] (m : List (α × β))
    (k1 k : α) (v : β) (hne : k1 ≠ k) :
    alGet (m ++ [(k1, v)]) k = alGet m k := by
  induction m with
  | nil => simp [alGet, hne]
  | cons p rest ih => by_cases h : p.1 = k <;> simp [alGet, h, ih]

/-- `alSet` under a different key leaves a lookup unchanged. -/
theorem alGet_alSet_ne {α β : Type} [DecidableEq α] (m : List (α × β)) (k1 k : α)
    (v : β) (hne : k1 ≠ k) :
    alGet (alSet m k1 v) k = alGet m k := by
  unfold alSet
  split
  · exact alGet_map_set_ne m k1 k v hne
  · exact alGet_append_single_ne m k1 k v hne

/-- A `Map.set` fold over entries whose keys all differ from `k` cannot
make `k` resolvable. -/
theorem alGet_foldl_alSet_none {β γ : Type} (ms : List (List Char × γ))
    (g : List Char × γ → β) :
    ∀ (acc : List (List Char × β)) (k : List Char),
      (∀ m ∈ ms, m.1 ≠ k) → alGet acc k = none →
      alGet (ms.foldl (fun m sm => alSet m sm.1 (g sm)) acc) k = none := by
  induction ms with
  | nil => intro acc k _ hacc; exact hacc
  | cons sm rest ih =>
      intro acc k hk hacc
      simp only [List.foldl_cons]
      exact ih _ k (fun m hm => hk m (by simp [hm]))
        ((alGet_alSet_ne acc sm.1 k (g sm) (hk sm (by simp))).trans hacc)

/-- A splice fold in which every substitute key misses the target
section map is the identity on the running result. -/
theorem foldl_splice_id (secs : List (List Char × Nat × Nat)) :
    ∀ (l : List (List Char × List Char)) (t : List Char),
      (∀ kv ∈ l, alGet secs kv.1 = none) →
      l.foldl
        (fun result kv =>
          match alGet secs kv.1 with
          | some se => result.take se.1 ++ kv.2 ++ result.drop se.2
          | none => result) t = t := by
  intro l
  induction l with
  | nil => intro t _; rfl
  | cons kv rest ih =>
      intro t h
      simp only [List.foldl_cons]
      rw [h kv (by simp)]
      exact ih t (fun kv2 hk => h kv2 (by simp [hk]))

/-- When no substitute key has a matching target section, the splice
loop returns the target unchanged. -/
theorem spliceSubs_of_none (secs : List (List Char × Nat × Nat))
    (subs : List (List Char × List Char)) (t : List Char)
    (h : ∀ kv ∈ subs, alGet secs kv.1 = none) :
    spliceSubs secs subs t = t := by
  unfold spliceSubs
  exact foldl_splice_id secs subs.reverse t
    (fun kv hk => h kv (List.mem_reverse.mp hk))

/-- Every entry of `alSet m k v` has a key of `m` or the key `k`. -/
theorem alSet_key_mem {α β : Type} [DecidableEq α] (m : List (α × β)) (k : α) (v : β) :
    ∀ kv ∈ alSet m k v, kv.1 ∈ m.map Prod.fst ∨ kv.1 = k := by
  intro kv hkv
  unfold alSet at hkv
  split at hkv
  · obtain ⟨p, hp, hfp⟩ := List.mem_map.mp hkv
    by_cases h1 : p.1 = k
    · right; rw [← hfp]; simp [h1]
    · left
      rw [← hfp]
      simp only [h1, if_false]
      exact List.mem_map_of_mem _ hp
  · rcases List.mem_append.mp hkv with h | h
    · left; exact List.mem_map_of_mem _ h
    · right
      simp only [List.mem_singleton] at h
      rw [h]

/-- Every key of `alSet m k v` is a key of `m` or the key `k`. -/
theorem alSet_keys_subset {α β : Type} [DecidableEq α] (m : List (α × β)) (k : α)
    (v : β) (x : α) (hx : x ∈ (alSet m k v).map Prod.fst) :
    x ∈ m.map Prod.fst ∨ x = k := by
  obtain ⟨kv, hkv, hfst⟩ := List.mem_map.mp hx
  rcases alSet_key_mem m k v kv hkv with h | h
  · left; rw [← hfst]; exact h
  · right; rw [← hfst]; exact h

/-- Every key produced by a `Map.set` fold comes from the accumulator or
from the folded entries. -/
theorem foldl_alSet_key_mem {β γ : Type} (g : List Char × γ → β) :
    ∀ (ms : List (List Char × γ)) (acc : List (List Char × β)) (kv : List Char × β),
      kv ∈ ms.foldl (fun m sm => alSet m sm.1 (g sm)) acc →
      kv.1 ∈ acc.map Prod.fst ∨ kv.1 ∈ ms.map Prod.fst := by
  intro ms
  induction ms with
  | nil =>
      intro acc kv h
      left
      exact List.mem_map_of_mem _ h
  | cons sm rest ih =>
      intro acc kv h
      simp only [List.foldl_cons] at h
      rcases ih _ kv h with h1 | h1
      · rcases alSet_keys_subset acc sm.1 (g sm) kv.1 h1 with h2 | h2
        · left; exact h2
        · right
          simp only [List.map_cons]
          exact h2 ▸ List.mem_cons_self _ _
      · right
        simp only [List.map_cons]
        exact List.mem_cons_of_mem _ h1

/-- C8: when no section names overlap between the override source (the
referencing frontmatter's own body) and the target content,
`replaceSections` returns the target content with every section marker
token stripped and no other change to the target text. -/
theorem claim_C8 (text : String) (frontmatter : GrayMatterFile)
    (h : ∀ n ∈ sectionNames frontmatter.content, n ∉ sectionNames text) :
    replaceSections text frontmatter = stripSectionMarkers text := by
  unfold replaceSections stripSectionMarkers
  have hid : spliceSubs (buildSecs text.toList) (buildSubs frontmatter.content.toList)
      text.toList = text.toList := by
    apply spliceSubs_of_none
    intro kv hkv
    unfold buildSubs at hkv
    have h1 : kv.1 ∈ (sectionMatches frontmatter.content.toList).map Prod.fst := by
      rcases foldl_alSet_key_mem
          (fun sm => seg frontmatter.content.toList sm.2.1 sm.2.2)
          (sectionMatches frontmatter.content.toList) [] kv hkv with h1 | h1
      · simp at h1
      · exact h1
    have h2 : String.mk kv.1 ∈ sectionNames frontmatter.content := by
      unfold sectionNames
      obtain ⟨m, hm, hfst⟩ := List.mem_map.mp h1
      exact List.mem_map.mpr ⟨m, hm, by rw [hfst]⟩
    have h3 := h _ h2
    unfold buildSecs
    refine alGet_foldl_alSet_none (sectionMatches text.toList) (fun sm => sm.2) []
      kv.1 ?_ rfl
    intro m hm hcontra
    exact h3 (by
      unfold sectionNames
      exact List.mem_map.mpr ⟨m, hm, by rw [hcontra]⟩)
  simp only [hid]

/-- A full section marker string with the given name (for witnesses). -/
def mark (name : String) : String := String.mk (markerPre ++ name.toList ++ [sq])

/-- Witness for C8: target with a section `a`, override source with a
section `b` — no overlap, so only the markers are stripped. -/
theorem claim_C8_witness :
    (∀ n ∈ sectionNames (GrayMatterFile.mk [] (mark "b" ++ "X" ++ mark "b")).content,
        n ∉ sectionNames (mark "a" ++ "hello" ++ mark "a")) ∧
    replaceSections (mark "a" ++ "hello" ++ mark "a")
        ⟨[], mark "b" ++ "X" ++ mark "b"⟩ =
      stripSectionMarkers (mark "a" ++ "hello" ++ mark "a") :=
  ⟨by decide, claim_C8 _ _ (by decide)⟩

/-- Spreading entries that never mention `k` over an initial object
preserves the initial object's lookup of `k`. -/
theorem alGet_objMerge_of_none (data : List (String × MVal)) :
    ∀ (init : List (String × MVal)) (k : String), alGet data k = none →
      alGet (objMerge init data) k = alGet init k := by
  induction data with
  | nil => intro init k _; rfl
  | cons kv rest ih =>
      intro init k hk
      have h1 : ¬ kv.1 = k := by
        intro he
        simp [alGet, he] at hk
      have h2 : alGet rest k = none := by simpa [alGet, h1] using hk
      calc alGet (objMerge init (kv :: rest)) k
          = alGet (objMerge (alSet init kv.1 kv.2) rest) k := rfl
        _ = alGet (alSet init kv.1 kv.2) k := ih (alSet init kv.1 kv.2) k h2
        _ = alGet init k := alGet_alSet_ne init kv.1 k kv.2 h1

/-- C9 amended: a target document produced by `copyDoc` or
`translateDoc` (from a source whose carried-over metadata does not
itself contain the timestamp keys) carries `source-updated-at` equal to
the source file's own last git-commit time — the ref target's commit
time is NOT consulted, unlike in `getDocUpdateStatus` — and
`translation-updated-at` equal to the time of the operation. -/
theorem claim_C9_amended (env : Env)
    (sourcePath targetPath docsRoot translatedRoot sourceContent : String)
    (parsed : GrayMatterFile) (g : Int)
    (hs : env.readFile sourcePath = some sourceContent)
    (hp : env.parse sourceContent = Except.ok parsed)
    (hg : env.gitTime sourcePath = some g)
    (hfresh1 : alGet parsed.data "source-updated-at" = none)
    (hfresh2 : alGet parsed.data "translation-updated-at" = none)
    (sourcePath2 targetPath2 sourceContent2 : String) (title : Option String)
    (parsed0 parsedT : GrayMatterFile) (g2 : Int)
    (hs2 : env.readFile sourcePath2 = some sourceContent2)
    (hp2 : env.parse sourceContent2 = Except.ok parsed0)
    (hsel : translateSourceDoc env sourcePath2 parsed0 = some parsedT)
    (hg2 : env.gitTime sourcePath2 = some g2)
    (hfresh3 : alGet parsedT.data "source-updated-at" = none)
    (hfresh4 : alGet parsedT.data "translation-updated-at" = none) :
    (∃ w, copyDoc env sourcePath targetPath docsRoot translatedRoot = some w ∧
        dataTime w.data "source-updated-at" = some g ∧
        dataTime w.data "translation-updated-at" = some env.now) ∧
    (∃ w, translateDoc env sourcePath2 targetPath2 title = some w ∧
        dataTime w.data "source-updated-at" = some g2 ∧
        dataTime w.data "translation-updated-at" = some env.now) := by
  constructor
  · unfold copyDoc
    simp only [hs, hp, hg]
    rcases hr : dataRef parsed with _ | r
    · refine ⟨_, rfl, ?_, ?_⟩
      · unfold dataTime
        rw [alGet_objMerge_of_none parsed.data _ _ hfresh1]
        simp [alGet]
      · unfold dataTime
        rw [alGet_objMerge_of_none parsed.data _ _ hfresh2]
        simp [alGet]
    · refine ⟨_, rfl, ?_, ?_⟩
      · unfold dataTime
        rw [alGet_alSet_ne _ _ _ _ (by decide),
          alGet_objMerge_of_none parsed.data _ _ hfresh1]
        simp [alGet]
      · unfold dataTime
        rw [alGet_alSet_ne _ _ _ _ (by decide),
          alGet_objMerge_of_none parsed.data _ _ hfresh2]
        simp [alGet]
  · unfold translateDoc
    simp only [hs2, hp2, hsel, hg2]
    refine ⟨_, rfl, ?_, ?_⟩
    · unfold dataTime
      rw [alGet_alSet_ne _ _ _ _ (by decide),
        alGet_objMerge_of_none parsedT.data _ _ hfresh3]
      simp [alGet]
    · unfold dataTime
      rw [alGet_alSet_ne _ _ _ _ (by decide),
        alGet_objMerge_of_none parsedT.data _ _ hfresh4]
      simp [alGet]

/-- Source frontmatter for the C9 counterexample and witness: a
reference document pointing at `docs/base.md`. -/
def c9Fm : GrayMatterFile := ⟨[("ref", MVal.str "docs/base.md")], ""⟩

/-- Environment for C9: source committed at 100, its ref target at 200,
operation happening at 500. -/
def c9Env : Env :=
  { readFile := fun p =>
      if p = "docs/s.md" then some "SRC"
      else if p = "docs/base.md" then some "BASE"
      else none
  , parse := fun t =>
      if t = "SRC" then Except.ok c9Fm
      else if t = "BASE" then Except.ok ⟨[], "hello"⟩
      else Except.error ()
  , gitTime := fun p =>
      if p = "docs/s.md" then some 100
      else if p = "docs/base.md" then some 200
      else none
  , translate := fun s => s
  , now := 500 }

/-- Counterexample to C9 as stated: `copyDoc` stamps `source-updated-at`
with the source file's own git time (100) even though the source carries
a `ref` whose target was committed later (200); the claimed effective
time `max 100 200 = 200` is not what is written. -/
theorem claim_C9_counterexample :
    (copyDoc c9Env "docs/s.md" "docs/fr/s.md" "docs" "docs/fr").map
        (fun w => dataTime w.data "source-updated-at") = some (some 100) ∧
    c9Env.gitTime "docs/base.md" = some 200 ∧
    max (100 : Int) 200 = 200 ∧ (100 : Int) ≠ 200 :=
  ⟨by decide, by decide, by decide, by decide⟩

/-- Witness for the amended C9 at the concrete environment `c9Env`. -/
theorem claim_C9_amended_witness :
    (∃ w, copyDoc c9Env "docs/s.md" "docs/fr/s.md" "docs" "docs/fr" = some w ∧
        dataTime w.data "source-updated-at" = some 100 ∧
        dataTime w.data "translation-updated-at" = some 500) ∧
    (∃ w, translateDoc c9Env "docs/s.md" "docs/fr/s.md" none = some w ∧
        dataTime w.data "source-updated-at" = some 100 ∧
        dataTime w.data "translation-updated-at" = some 500) :=
  claim_C9_amended c9Env "docs/s.md" "docs/fr/s.md" "docs" "docs/fr" "SRC" c9Fm 100
    (by decide) (by rfl) (by decide) (by rfl) (by rfl)
    "docs/s.md" "docs/fr/s.md" "SRC" none c9Fm ⟨[], "hello"⟩ 100
    (by decide) (by rfl) (by rfl) (by decide) (by rfl) (by rfl)

end TranslateDocs
